import Mathlib

/-!
Verification of the state-specification / context-bootstrapping core of the
`rune` repository (`src/utils/utils.rs`) against its natural-language
specification.

Shallow-embedding conventions:

* A Rust `&str` is modelled as `List Char` (the source only slices at the
  positions of the ASCII prefix `0x`, where byte- and char-indexing agree);
  `String`-typed wrappers around the `List Char` cores are provided so that
  theorems can be stated on string literals.
* A Rust process abort — `expect(..)`, `unwrap()` on `None`/`Err`, or an
  out-of-bounds index into a `Vec` — is modelled as `Except.error (Panic.mk m)`.
  An `Except.error` value therefore represents an abort of the whole process,
  not a recoverable error value handed to the caller.
* `usize`/`u64` arithmetic: the parsers build a `Nat` and fail (as the Rust
  `from_str_radix` does) as soon as an intermediate value would leave the
  64-bit range, so values are exact and never wrap.
* Collaborators that live outside this repository's `src/` tree
  (`RuneContext`, the register/memory stores, the solver session) are
  modelled from the spec; each such definition carries a doc comment
  starting with `Modelled from the spec:`.
-/

namespace Rune

/-- A Rust process abort (a panic raised by `expect`, `unwrap`, or an
out-of-bounds slice/`Vec` index), carrying the panic message. -/
structure Panic where
  msg : String
deriving DecidableEq, Repr

instance {ε α : Type} [DecidableEq ε] [DecidableEq α] : DecidableEq (Except ε α) := fun a b =>
  match a, b with
  | .error x, .error y =>
    match decEq x y with
    | isTrue h => isTrue (by rw [h])
    | isFalse h => isFalse (fun hc => h (by cases hc; rfl))
  | .error _, .ok _ => isFalse (fun hc => Except.noConfusion hc)
  | .ok _, .error _ => isFalse (fun hc => Except.noConfusion hc)
  | .ok x, .ok y =>
    match decEq x y with
    | isTrue h => isTrue (by rw [h])
    | isFalse h => isFalse (fun hc => h (by cases hc; rfl))

/-- Rust `enum ValType` from `src/utils/utils.rs` (`usize` as `Nat`). -/
inductive ValType where
  | Concrete : Nat → ValType
  | Symbolic : ValType
  | Break : ValType
  | Unknown : String → ValType
deriving DecidableEq, Repr

/-- Rust `enum Key` from `src/utils/utils.rs`: a memory address or a register name. -/
inductive Key where
  | Mem : Nat → Key
  | Reg : String → Key
deriving DecidableEq, Repr

/-- Rust `struct SAssignment` from `src/utils/utils.rs`. -/
structure SAssignment where
  lvalue : Key
  rvalue : ValType
deriving DecidableEq, Repr

/-- Rust `char::to_digit` without the radix filter: the raw digit value of a
character (`0-9`, `a-z`, `A-Z`), by code point. -/
def charDigitVal (c : Char) : Option Nat :=
  if 48 ≤ c.toNat ∧ c.toNat ≤ 57 then some (c.toNat - 48)
  else if 97 ≤ c.toNat ∧ c.toNat ≤ 122 then some (c.toNat - 97 + 10)
  else if 65 ≤ c.toNat ∧ c.toNat ≤ 90 then some (c.toNat - 65 + 10)
  else none

/-- Rust `char::to_digit(radix)`: the digit value when it is below the radix. -/
def toDigit (radix : Nat) (c : Char) : Option Nat :=
  match charDigitVal c with
  | some d => if d < radix then some d else none
  | none => none

/-- Rust `char::is_digit(10)`, as used by `to_key` and `convert_to_u64`. -/
def is_digit10 (c : Char) : Bool := (toDigit 10 c).isSome

/-- One past the largest `u64`/64-bit `usize` value. -/
def u64Bound : Nat := 2 ^ 64

/-- Digit-accumulation loop of Rust `from_str_radix`: left-to-right Horner
evaluation with a checked-overflow test at every step. -/
def digitsLoop (radix : Nat) (acc : Nat) : List Char → Option Nat
  | [] => some acc
  | c :: rest =>
    match toDigit radix c with
    | none => none
    | some d =>
      if acc * radix + d < u64Bound then digitsLoop radix (acc * radix + d) rest
      else none

/-- Rust `usize::from_str_radix` / `u64::from_str_radix` on a 64-bit target:
an optional leading sign followed by at least one digit of the radix; `-`
only succeeds on the value zero; overflow yields `none`. -/
def from_str_radix (radix : Nat) : List Char → Option Nat
  | [] => none
  | c :: rest =>
    if c = '+' then
      if rest = [] then none else digitsLoop radix 0 rest
    else if c = '-' then
      if rest = [] then none
      else
        match digitsLoop radix 0 rest with
        | some 0 => some 0
        | _ => none
    else digitsLoop radix 0 (c :: rest)

/-- Rust `convert_to_u64` (`src/utils/utils.rs:80`): `0x`-prefixed tokens of
length above two parse as hex, tokens whose first character is a decimal
digit parse as decimal, anything else is `none`; the `.chars().nth(0).unwrap()`
on an empty token is a panic. -/
def convert_to_u64Core (s : List Char) : Except Panic (Option Nat) :=
  if s.length > 2 ∧ s.take 2 = ['0', 'x'] then
    .ok (from_str_radix 16 (s.drop 2))
  else
    match s with
    | [] => .error ⟨"called Option::unwrap() on a None value"⟩
    | c :: _ => if is_digit10 c then .ok (from_str_radix 10 s) else .ok none

/-- Rust `to_key` (`src/utils/utils.rs:42`): hex/decimal tokens map to a
memory address — with `.expect("Invalid number!")`, i.e. a panic, on a
malformed numeral — and any other token maps to a register name verbatim. -/
def to_keyCore (s : List Char) : Except Panic Key :=
  if s.length > 2 ∧ s.take 2 = ['0', 'x'] then
    match from_str_radix 16 (s.drop 2) with
    | some n => .ok (Key.Mem n)
    | none => .error ⟨"Invalid number!"⟩
  else
    match s with
    | [] => .error ⟨"called Option::unwrap() on a None value"⟩
    | c :: _ =>
      if is_digit10 c then
        match from_str_radix 10 s with
        | some n => .ok (Key.Mem n)
        | none => .error ⟨"Invalid number!"⟩
      else .ok (Key.Reg (String.mk s))

/-- Rust `to_valtype` (`src/utils/utils.rs:53`): the literal token `SYM` is
`Symbolic`, a token accepted by `convert_to_u64` is `Concrete`, anything
else is `None`. -/
def to_valtypeCore (s : List Char) : Except Panic (Option ValType) :=
  if s = ['S', 'Y', 'M'] then .ok (some ValType.Symbolic)
  else
    match convert_to_u64Core s with
    | .error e => .error e
    | .ok (some v) => .ok (some (ValType.Concrete v))
    | .ok none => .ok none

/-- Rust `str::trim` restricted to the ASCII whitespace the inputs use. -/
def trimCore (s : List Char) : List Char :=
  ((s.dropWhile Char.isWhitespace).reverse.dropWhile Char.isWhitespace).reverse

/-- Rust `str::split('=')`: the list of (possibly empty) segments between
occurrences of `=`; never the empty list. -/
def splitEq : List Char → List (List Char)
  | [] => [[]]
  | c :: rest =>
    if c = '=' then [] :: splitEq rest
    else
      match splitEq rest with
      | [] => [[c]]
      | p :: ps => (c :: p) :: ps

/-- Rust `to_assignment` (`src/utils/utils.rs:65`): split on `=`, resolve
`ops[0].trim()` as the location (first, as the source does), then classify
`ops[1].trim()` as the value; the `ops[1]` index is a panic when the split
produced a single segment. -/
def to_assignmentCore (s : List Char) : Except Panic (Option SAssignment) :=
  match splitEq s with
  | [] => .error ⟨"unreachable: split is never empty"⟩
  | op0 :: rest =>
    match to_keyCore (trimCore op0) with
    | .error e => .error e
    | .ok lvalue =>
      match rest with
      | [] => .error ⟨"index out of bounds: the len is 1 but the index is 1"⟩
      | op1 :: _ =>
        match to_valtypeCore (trimCore op1) with
        | .error e => .error e
        | .ok none => .ok none
        | .ok (some rvalue) => .ok (some ⟨lvalue, rvalue⟩)

/-- String-literal wrapper for `convert_to_u64Core`. -/
def convert_to_u64 (s : String) : Except Panic (Option Nat) := convert_to_u64Core s.data

/-- String-literal wrapper for `to_keyCore`. -/
def to_key (s : String) : Except Panic Key := to_keyCore s.data

/-- String-literal wrapper for `to_valtypeCore`. -/
def to_valtype (s : String) : Except Panic (Option ValType) := to_valtypeCore s.data

/-- String-literal wrapper for `to_assignmentCore`. -/
def to_assignment (s : String) : Except Panic (Option SAssignment) := to_assignmentCore s.data

/-- Modelled from the spec: the state of one register or memory cell in the
execution context — marked symbolic (solver-tracked) or constant with a
value (§6, glossary). -/
inductive CtxVal where
  | symbolic : CtxVal
  | concrete : Nat → CtxVal
deriving DecidableEq, Repr

/-- Removal of every binding of a key from an association list. -/
def removeKey {α β : Type} [DecidableEq α] : List (α × β) → α → List (α × β)
  | [], _ => []
  | p :: rest, k => if p.1 = k then removeKey rest k else p :: removeKey rest k

/-- Store update for an association list: the new binding replaces any
earlier binding of the same key. -/
def setAssoc {α β : Type} [DecidableEq α] (l : List (α × β)) (k : α) (v : β) : List (α × β) :=
  (k, v) :: removeKey l k

/-- Lookup in an association list. -/
def lookupAssoc {α β : Type} [DecidableEq α] : List (α × β) → α → Option β
  | [], _ => none
  | p :: rest, k => if p.1 = k then some p.2 else lookupAssoc rest k

/-- Modelled from the spec: the `RuneContext` aggregate built by the
bootstrapper (§3 Execution Context) — instruction pointer, binary metadata
used to configure the memory store, and the register/memory stores, each a
map from location to its marked state. The solver session carries no state
observable by the claims and is omitted. -/
structure RuneContext where
  ip : Option Nat
  bits : Nat
  endian : String
  regs : List (String × CtxVal)
  mem : List (Nat × CtxVal)
deriving DecidableEq, Repr

/-- Modelled from the spec: register-store operation marking a register
symbolic within the session (§6); a later mark of the same location
overwrites an earlier one (§4.5 step 7). -/
def RuneContext.set_reg_as_sym (c : RuneContext) (r : String) : RuneContext :=
  { c with regs := setAssoc c.regs r CtxVal.symbolic }

/-- Modelled from the spec: register-store operation marking a register
constant with a specified value (§6). -/
def RuneContext.set_reg_as_const (c : RuneContext) (r : String) (v : Nat) : RuneContext :=
  { c with regs := setAssoc c.regs r (CtxVal.concrete v) }

/-- Modelled from the spec: memory-store operation marking a cell at an
address symbolic at a given bit width (§6; the source always passes 64). -/
def RuneContext.set_mem_as_sym (c : RuneContext) (addr : Nat) (_width : Nat) : RuneContext :=
  { c with mem := setAssoc c.mem addr CtxVal.symbolic }

/-- Modelled from the spec: memory-store operation marking a cell at an
address constant with a specified value at a given bit width (§6). -/
def RuneContext.set_mem_as_const (c : RuneContext) (addr v : Nat) (_width : Nat) : RuneContext :=
  { c with mem := setAssoc c.mem addr (CtxVal.concrete v) }

/-- The register layout reported by the platform (`LRegInfo`): the source
uses only each descriptor's `name`, so a descriptor is its name. -/
structure LRegInfo where
  reg_info : List String
deriving DecidableEq, Repr

/-- The `bin` record of the platform's binary metadata: `bits` and `endian`
are optional fields the source unwraps. -/
structure RBin where
  bits : Option Nat
  endian : Option String
deriving DecidableEq, Repr

/-- The platform's binary-metadata reply, whose `bin` field the source unwraps. -/
structure RBinInfo where
  bin : Option RBin
deriving DecidableEq, Repr

/-- The platform handle (`R2`): its two queries either answer (`some`) or
fail (`none`, which the source meets with `unwrap()`, i.e. a panic). -/
structure R2 where
  reg_info : Option LRegInfo
  bin_info : Option RBinInfo
deriving DecidableEq, Repr

/-- Rust `new_ctx` (`src/utils/utils.rs:99`): query the platform (panicking
on failure), build the context, apply the requested symbolic locations,
then the requested constants, and finally set every platform-reported
register to constant zero — unconditionally, as the source loop does. -/
def new_ctx (ip : Option Nat) (syms : Option (List Key))
    (consts : Option (List (Key × Nat))) (r2 : R2) : Except Panic RuneContext :=
  match r2.reg_info with
  | none => .error ⟨"called Result::unwrap() on an Err value"⟩
  | some lreginfo =>
    match r2.bin_info with
    | none => .error ⟨"called Result::unwrap() on an Err value"⟩
    | some binfo =>
      match binfo.bin with
      | none => .error ⟨"called Option::unwrap() on a None value"⟩
      | some bin =>
        match bin.bits with
        | none => .error ⟨"called Option::unwrap() on a None value"⟩
        | some bits =>
          match bin.endian with
          | none => .error ⟨"called Option::unwrap() on a None value"⟩
          | some endian =>
            let ctx : RuneContext :=
              { ip := ip, bits := bits, endian := endian, regs := [], mem := [] }
            let ctx :=
              match syms with
              | none => ctx
              | some sym_vars =>
                sym_vars.foldl
                  (fun c var =>
                    match var with
                    | Key.Mem addr => c.set_mem_as_sym addr 64
                    | Key.Reg reg => c.set_reg_as_sym reg) ctx
            let ctx :=
              match consts with
              | none => ctx
              | some const_var =>
                const_var.foldl
                  (fun c kv =>
                    match kv with
                    | (Key.Mem addr, v) => c.set_mem_as_const addr v 64
                    | (Key.Reg reg, v) => c.set_reg_as_const reg v) ctx
            .ok (lreginfo.reg_info.foldl (fun c name => c.set_reg_as_const name 0) ctx)

/-- The state of one register in the result of a bootstrap run: `none` when
the bootstrap aborted or never assigned that register. -/
def ctxRegVal (r : Except Panic RuneContext) (name : String) : Option CtxVal :=
  match r with
  | .ok c => lookupAssoc c.regs name
  | .error _ => none

/-- A concrete healthy platform reply: two registers, a 64-bit
little-endian binary. -/
def r2ex : R2 :=
  { reg_info := some ⟨["rax", "rbx"]⟩
    bin_info := some ⟨some ⟨some 64, some "little"⟩⟩ }

/-- Horner value of a digit string continued from an accumulator, in the
given base. -/
def numValueFrom (radix acc : Nat) (ds : List Char) : Nat :=
  ds.foldl (fun a c => a * radix + (charDigitVal c).getD 0) acc

/-- The exact numeric value a digit string encodes in the given base. -/
def numValue (radix : Nat) (ds : List Char) : Nat := numValueFrom radix 0 ds

/-- A character accepted as a base-16 digit by `char::to_digit(16)`. -/
def isHexDigit (c : Char) : Bool := (toDigit 16 c).isSome

/-- A well-formed numeral in the mini-language: `0x` followed by at least
one hex digit, or a non-empty all-decimal-digit token. -/
def wfNumeral (core : List Char) : Prop :=
  (∃ ds, core = '0' :: 'x' :: ds ∧ ds ≠ [] ∧ ∀ c ∈ ds, isHexDigit c) ∨
  (core ≠ [] ∧ ∀ c ∈ core, is_digit10 c)

theorem toDigit_eq_some {radix : Nat} {c : Char} {d : Nat} (h : toDigit radix c = some d) :
    charDigitVal c = some d ∧ d < radix := by
  unfold toDigit at h
  split at h
  · rename_i d' hc
    split at h
    · rename_i hlt; cases h; exact ⟨hc, hlt⟩
    · cases h
  · cases h

theorem numValueFrom_cons (radix acc : Nat) (c : Char) (rest : List Char) :
    numValueFrom radix acc (c :: rest) =
      numValueFrom radix (acc * radix + (charDigitVal c).getD 0) rest := rfl

theorem le_numValueFrom (radix : Nat) (hr : 1 ≤ radix) :
    ∀ (ds : List Char) (acc : Nat), acc ≤ numValueFrom radix acc ds
  | [], acc => Nat.le_refl acc
  | c :: rest, acc => by
    have h1 : acc ≤ acc * radix + (charDigitVal c).getD 0 := by nlinarith
    exact Nat.le_trans h1 (le_numValueFrom radix hr rest _)

theorem digitsLoop_eq (radix : Nat) (hr : 1 ≤ radix) :
    ∀ (ds : List Char) (acc : Nat),
      (∀ c ∈ ds, (toDigit radix c).isSome) →
      numValueFrom radix acc ds < u64Bound →
      digitsLoop radix acc ds = some (numValueFrom radix acc ds)
  | [], _, _, _ => rfl
  | c :: rest, acc, hdig, hbound => by
    obtain ⟨d, hd⟩ := Option.isSome_iff_exists.mp (hdig c (List.mem_cons_self c rest))
    obtain ⟨hcd, _⟩ := toDigit_eq_some hd
    have hval : (charDigitVal c).getD 0 = d := by rw [hcd]; rfl
    have hstep : numValueFrom radix acc (c :: rest) =
        numValueFrom radix (acc * radix + d) rest := by
      rw [numValueFrom_cons, hval]
    rw [hstep] at hbound
    have hacc : acc * radix + d < u64Bound :=
      Nat.lt_of_le_of_lt (le_numValueFrom radix hr rest _) hbound
    rw [hstep]
    simp only [digitsLoop, hd]
    rw [if_pos hacc]
    exact digitsLoop_eq radix hr rest (acc * radix + d)
      (fun x hx => hdig x (List.mem_cons_of_mem c hx)) hbound

theorem digitsLoop_none (radix : Nat) :
    ∀ (ds : List Char) (acc : Nat), (∃ c ∈ ds, toDigit radix c = none) →
      digitsLoop radix acc ds = none
  | [], _, h => by obtain ⟨x, hx, _⟩ := h; cases hx
  | c :: rest, acc, h => by
    rcases hd : toDigit radix c with _ | d
    · simp only [digitsLoop, hd]
    · obtain ⟨x, hx, hxn⟩ := h
      rcases List.mem_cons.mp hx with rfl | hx'
      · rw [hd] at hxn; cases hxn
      · simp only [digitsLoop, hd]
        by_cases hb : acc * radix + d < u64Bound
        · rw [if_pos hb]
          exact digitsLoop_none radix rest _ ⟨x, hx', hxn⟩
        · rw [if_neg hb]

theorem numValueFrom_lt (radix : Nat) :
    ∀ (ds : List Char) (acc : Nat),
      (∀ c ∈ ds, (toDigit radix c).isSome) →
      numValueFrom radix acc ds < (acc + 1) * radix ^ ds.length
  | [], acc, _ => by
    simp only [numValueFrom, List.foldl_nil, List.length_nil, pow_zero, mul_one]
    omega
  | c :: rest, acc, hdig => by
    obtain ⟨d, hd⟩ := Option.isSome_iff_exists.mp (hdig c (List.mem_cons_self c rest))
    obtain ⟨hcd, hdr⟩ := toDigit_eq_some hd
    have hval : (charDigitVal c).getD 0 = d := by rw [hcd]; rfl
    have ih := numValueFrom_lt radix rest (acc * radix + d)
      (fun x hx => hdig x (List.mem_cons_of_mem c hx))
    rw [numValueFrom_cons, hval]
    have h1 : acc * radix + d + 1 ≤ (acc + 1) * radix := by nlinarith
    calc numValueFrom radix (acc * radix + d) rest
        < (acc * radix + d + 1) * radix ^ rest.length := ih
      _ ≤ ((acc + 1) * radix) * radix ^ rest.length := Nat.mul_le_mul_right _ h1
      _ = (acc + 1) * radix ^ (c :: rest).length := by
          rw [List.length_cons, pow_succ]; ring

theorem lookupAssoc_setAssoc_self {α β : Type} [DecidableEq α]
    (l : List (α × β)) (k : α) (v : β) :
    lookupAssoc (setAssoc l k v) k = some v := by
  simp [setAssoc, lookupAssoc]

theorem lookupAssoc_removeKey_ne {α β : Type} [DecidableEq α] {k k' : α} (h : k' ≠ k) :
    ∀ l : List (α × β), lookupAssoc (removeKey l k) k' = lookupAssoc l k'
  | [] => rfl
  | p :: rest => by
    by_cases hk : p.1 = k
    · have hq : ¬ p.1 = k' := fun hh => h (hh.symm.trans hk)
      simp only [removeKey, if_pos hk, lookupAssoc, if_neg hq]
      exact lookupAssoc_removeKey_ne h rest
    · by_cases hq : p.1 = k'
      · simp only [removeKey, if_neg hk, lookupAssoc, if_pos hq]
      · simp only [removeKey, if_neg hk, lookupAssoc, if_neg hq]
        exact lookupAssoc_removeKey_ne h rest

theorem lookupAssoc_setAssoc_ne {α β : Type} [DecidableEq α]
    (l : List (α × β)) {k k' : α} (v : β) (h : k' ≠ k) :
    lookupAssoc (setAssoc l k v) k' = lookupAssoc l k' := by
  have hq : ¬ k = k' := fun hh => h hh.symm
  simp only [setAssoc, lookupAssoc, if_neg hq]
  exact lookupAssoc_removeKey_ne h l

theorem foldl_set0_regs : ∀ (names : List String) (c : RuneContext),
    (names.foldl (fun c n => RuneContext.set_reg_as_const c n 0) c).regs =
      names.foldl (fun l n => setAssoc l n (CtxVal.concrete 0)) c.regs
  | [], _ => rfl
  | n :: rest, c => foldl_set0_regs rest (c.set_reg_as_const n 0)

theorem lookup_foldl_setAssoc_not_mem {β : Type} (v : β) :
    ∀ (names : List String) (l : List (String × β)) (k : String), k ∉ names →
      lookupAssoc (names.foldl (fun l n => setAssoc l n v) l) k = lookupAssoc l k
  | [], _, _, _ => rfl
  | n :: rest, l, k, h => by
    have h1 : k ∉ rest := fun hh => h (List.mem_cons_of_mem n hh)
    have h2 : k ≠ n := fun hh => h (hh ▸ List.mem_cons_self n rest)
    rw [List.foldl_cons, lookup_foldl_setAssoc_not_mem v rest _ k h1,
      lookupAssoc_setAssoc_ne l v h2]

theorem lookup_foldl_setAssoc_mem {β : Type} (v : β) :
    ∀ (names : List String) (l : List (String × β)) (k : String), k ∈ names →
      lookupAssoc (names.foldl (fun l n => setAssoc l n v) l) k = some v
  | [], _, _, h => absurd h (List.not_mem_nil _)
  | n :: rest, l, k, h => by
    rw [List.foldl_cons]
    by_cases hk : k ∈ rest
    · exact lookup_foldl_setAssoc_mem v rest _ k hk
    · have hkn : k = n := by
        rcases List.mem_cons.mp h with h' | h'
        · exact h'
        · exact absurd h' hk
      subst hkn
      rw [lookup_foldl_setAssoc_not_mem v rest _ k hk, lookupAssoc_setAssoc_self]

/-- C7: bootstrapping with no symbolic and no constant inputs (each
collection absent or empty) sets every platform-reported register to
concrete zero in the returned context. -/
theorem claim7_default_zero_without_inputs
    (ip : Option Nat) (r2 : R2) (lr : LRegInfo) (bits : Nat) (endian : String)
    (syms : Option (List Key)) (consts : Option (List (Key × Nat)))
    (hreg : r2.reg_info = some lr)
    (hbin : r2.bin_info = some ⟨some ⟨some bits, some endian⟩⟩)
    (hsyms : syms = none ∨ syms = some [])
    (hconsts : consts = none ∨ consts = some [])
    (name : String) (hname : name ∈ lr.reg_info) :
    ctxRegVal (new_ctx ip syms consts r2) name = some (CtxVal.concrete 0) := by
  have key : ∀ c0 : RuneContext,
      lookupAssoc ((lr.reg_info.foldl (fun c n => RuneContext.set_reg_as_const c n 0) c0).regs)
        name = some (CtxVal.concrete 0) := by
    intro c0
    rw [foldl_set0_regs]
    exact lookup_foldl_setAssoc_mem _ _ _ _ hname
  unfold new_ctx
  rw [hreg, hbin]
  rcases hsyms with rfl | rfl <;> rcases hconsts with rfl | rfl <;> exact key _

/-- C7 witness: a bootstrap of the concrete two-register platform with both
input collections absent leaves the second register at concrete zero. -/
theorem claim7_default_zero_without_inputs_witness :
    r2ex.reg_info = some ⟨["rax", "rbx"]⟩ ∧
    ctxRegVal (new_ctx none none none r2ex) "rbx" = some (CtxVal.concrete 0) :=
  ⟨rfl, claim7_default_zero_without_inputs none r2ex ⟨["rax", "rbx"]⟩ 64 "little"
    none none rfl rfl (Or.inl rfl) (Or.inl rfl) "rbx" (by decide)⟩

/-- C1: the default pass of `new_ctx` runs after the explicit
symbolic/concrete application steps and sets every platform-reported
register to concrete zero unconditionally, so a register explicitly
declared symbolic ends at concrete zero — the explicit declaration is
overwritten, contradicting the claim. -/
theorem claim1_explicit_declaration_overwritten :
    ctxRegVal (new_ctx none (some [Key.Reg "rax"]) none r2ex) "rax" = some (CtxVal.concrete 0) ∧
    ctxRegVal (new_ctx none (some [Key.Reg "rax"]) none r2ex) "rax" ≠ some CtxVal.symbolic := by
  decide

/-- C2: `to_key` aborts (panics with `Invalid number!`) on the malformed
numerals `0xZZ` and `12x` instead of returning a location, and the abort
propagates through the mini-language parser `to_assignment`. -/
theorem claim2_to_key_aborts_on_malformed :
    to_key "0xZZ" = .error ⟨"Invalid number!"⟩ ∧
    to_key "12x" = .error ⟨"Invalid number!"⟩ ∧
    to_assignment "0xZZ = SYM" = .error ⟨"Invalid number!"⟩ := by
  decide

/-- C3: on a token with zero `=` separators `to_assignment` aborts with an
out-of-range index panic rather than returning a validation error, and on a
token with two separators it silently succeeds rather than reporting a
validation error. -/
theorem claim3_separator_edge_cases_unguarded :
    to_assignment "abc" = .error ⟨"index out of bounds: the len is 1 but the index is 1"⟩ ∧
    to_assignment "rax=5=SYM" = .ok (some ⟨Key.Reg "rax", ValType.Concrete 5⟩) := by
  decide

/-- C5: the assignment parser trims whitespace around `=` and produces the
resolved pairs of the spec examples, and `rbx=SYM` parses identically to
`rbx = SYM`. -/
theorem claim5_to_assignment_examples :
    to_assignment "rax = 0x10" = .ok (some ⟨Key.Reg "rax", ValType.Concrete 16⟩) ∧
    to_assignment "0x1000 = SYM" = .ok (some ⟨Key.Mem 4096, ValType.Symbolic⟩) ∧
    to_assignment "rbx=SYM" = to_assignment "rbx = SYM" := by
  decide

/-- C8: when the platform cannot report the register layout or the binary
metadata, `new_ctx` aborts the whole construction by panicking (no partial
context), rather than returning a distinct `PlatformUnavailable` error
value to the caller. -/
theorem claim8_platform_failure_aborts :
    new_ctx none none none { reg_info := none, bin_info := r2ex.bin_info } =
      .error ⟨"called Result::unwrap() on an Err value"⟩ ∧
    new_ctx none none none { reg_info := r2ex.reg_info, bin_info := none } =
      .error ⟨"called Result::unwrap() on an Err value"⟩ := by
  decide

/-- C9 counterexample: `0xZZ=5=SYM` has two `=` separators and its middle
segment classifies as the value `Concrete 5`, yet `to_assignment` does not
return an assignment built from the first two segments — resolving the
first segment aborts the process. -/
theorem claim9_first_segment_abort_counterexample :
    splitEq "0xZZ=5=SYM".data = ["0xZZ".data, "5".data, "SYM".data] ∧
    to_valtypeCore (trimCore "5".data) = .ok (some (ValType.Concrete 5)) ∧
    to_assignment "0xZZ=5=SYM" = .error ⟨"Invalid number!"⟩ := by
  refine ⟨by decide, by decide, by decide⟩

/-- C9 (amended): when the input has two or more `=` separators, the first
segment resolves to a location without aborting, and the segment between
the first and second `=` classifies as a value, `to_assignment` returns the
assignment built from only the first two segments and ignores everything
after the second `=`. -/
theorem claim9_extra_segments_ignored
    (s op0 op1 : List Char) (rest : List (List Char)) (lv : Key) (rv : ValType)
    (hsplit : splitEq s = op0 :: op1 :: rest)
    (hrest : rest ≠ [])
    (hk : to_keyCore (trimCore op0) = .ok lv)
    (hv : to_valtypeCore (trimCore op1) = .ok (some rv)) :
    to_assignmentCore s = .ok (some ⟨lv, rv⟩) := by
  unfold to_assignmentCore
  rw [hsplit]
  simp only [hk, hv]

/-- C9 witness: `rax = 5 = SYM` parses to `rax := Concrete 5`, ignoring the
trailing `= SYM`. -/
theorem claim9_extra_segments_ignored_witness :
    to_assignmentCore "rax = 5 = SYM".data =
      .ok (some ⟨Key.Reg "rax", ValType.Concrete 5⟩) :=
  claim9_extra_segments_ignored "rax = 5 = SYM".data "rax ".data " 5 ".data
    [" SYM".data] (Key.Reg "rax") (ValType.Concrete 5) (by decide) (by decide)
    (by decide) (by decide)

theorem toDigit_plus (radix : Nat) : toDigit radix '+' = none := by
  unfold toDigit
  rw [(by decide : charDigitVal '+' = none)]

theorem toDigit_minus (radix : Nat) : toDigit radix '-' = none := by
  unfold toDigit
  rw [(by decide : charDigitVal '-' = none)]

theorem digit_isSome_ne {r : Nat} {c c' : Char} (h : (toDigit r c).isSome = true)
    (h' : toDigit r c' = none) : c ≠ c' := by
  intro he
  rw [he, h'] at h
  cases h

theorem ws_charDigitVal {c : Char} (h : c.isWhitespace = true) : charDigitVal c = none := by
  have h4 : c = ' ' ∨ c = '\t' ∨ c = '\r' ∨ c = '\n' := by
    have h' := h
    simp [Char.isWhitespace] at h'
    tauto
  rcases h4 with rfl | rfl | rfl | rfl <;> decide

theorem ws_toDigit {c : Char} (radix : Nat) (h : c.isWhitespace = true) :
    toDigit radix c = none := by
  unfold toDigit
  rw [ws_charDigitVal h]

theorem from_str_radix_cons (radix : Nat) (c : Char) (rest : List Char) :
    from_str_radix radix (c :: rest) =
      if c = '+' then (if rest = [] then none else digitsLoop radix 0 rest)
      else if c = '-' then
        (if rest = [] then none
         else match digitsLoop radix 0 rest with
           | some 0 => some 0
           | _ => none)
      else digitsLoop radix 0 (c :: rest) := rfl

/-- A digit-headed token containing a whitespace character anywhere fails
`from_str_radix`. -/
theorem from_str_radix_digits_head_none {radix : Nat} {d : Char} {rest : List Char} {w : Char}
    (hd : (toDigit radix d).isSome = true) (hw : w.isWhitespace = true)
    (hmem : w ∈ d :: rest) :
    from_str_radix radix (d :: rest) = none := by
  have hplus : ¬ (d = '+') := digit_isSome_ne hd (toDigit_plus radix)
  have hminus : ¬ (d = '-') := digit_isSome_ne hd (toDigit_minus radix)
  rw [from_str_radix_cons, if_neg hplus, if_neg hminus]
  exact digitsLoop_none radix (d :: rest) 0 ⟨w, hmem, ws_toDigit radix hw⟩

/-- A token headed by a whitespace character never classifies: it is not
`SYM`, not `0x`-prefixed, and its first character is not a decimal digit. -/
theorem to_valtypeCore_ws_head {w : Char} (l : List Char) (hw : w.isWhitespace = true) :
    to_valtypeCore (w :: l) = .ok none := by
  have hsym : ¬ (w :: l = ['S', 'Y', 'M']) := by
    intro he
    injection he with h1 _
    rw [h1] at hw
    exact absurd hw (by decide)
  have hcond : ¬ ((w :: l).length > 2 ∧ (w :: l).take 2 = ['0', 'x']) := by
    rintro ⟨_, htake⟩
    have hw0 : w = '0' := by
      have h2 := congrArg (fun t => t.headI) htake
      simpa using h2
    rw [hw0] at hw
    exact absurd hw (by decide)
  have hdig : is_digit10 w = false := by
    unfold is_digit10
    rw [ws_toDigit 10 hw]
    rfl
  have hconv : convert_to_u64Core (w :: l) = .ok none := by
    unfold convert_to_u64Core
    rw [if_neg hcond]
    show (if is_digit10 w then Except.ok (from_str_radix 10 (w :: l))
      else Except.ok none) = Except.ok none
    rw [hdig]
    rfl
  unfold to_valtypeCore
  rw [if_neg hsym, hconv]

/-- C4 counterexample: the all-decimal-digit token `18446744073709551616`
encodes exactly `2 ^ 64`, yet `convert_to_u64` returns no value for it
(64-bit overflow), so the parser is not exact on every all-decimal-digit
token. -/
theorem claim4_decimal_overflow_counterexample :
    ("18446744073709551616".data.all is_digit10) = true ∧
    numValue 10 "18446744073709551616".data = 2 ^ 64 ∧
    convert_to_u64 "18446744073709551616" = .ok none := by
  refine ⟨by decide, by decide, by decide⟩

/-- C4 (amended): the numeric literal parser is exact on every `0x` token
with 1-16 hex digits, and on every all-decimal-digit token whose encoded
value fits in 64 bits. -/
theorem claim4_literal_parser_exact :
    (∀ ds : List Char, ds ≠ [] → ds.length ≤ 16 → (∀ c ∈ ds, isHexDigit c) →
      convert_to_u64Core ('0' :: 'x' :: ds) = .ok (some (numValue 16 ds))) ∧
    (∀ ds : List Char, ds ≠ [] → (∀ c ∈ ds, is_digit10 c) → numValue 10 ds < u64Bound →
      convert_to_u64Core ds = .ok (some (numValue 10 ds))) := by
  constructor
  · intro ds hne hlen hhex
    cases ds with
    | nil => exact absurd rfl hne
    | cons c rest =>
      have hdigits : ∀ x ∈ c :: rest, (toDigit 16 x).isSome = true := fun x hx => hhex x hx
      have hbound : numValueFrom 16 0 (c :: rest) < u64Bound := by
        calc numValueFrom 16 0 (c :: rest)
            < (0 + 1) * 16 ^ (c :: rest).length := numValueFrom_lt 16 (c :: rest) 0 hdigits
          _ = 16 ^ (c :: rest).length := by ring
          _ ≤ 16 ^ 16 := Nat.pow_le_pow_right (by norm_num) hlen
          _ = u64Bound := by norm_num [u64Bound]
      have hcond : ('0' :: 'x' :: c :: rest).length > 2 ∧
          ('0' :: 'x' :: c :: rest).take 2 = ['0', 'x'] := by
        refine ⟨?_, rfl⟩
        simp only [List.length_cons]
        omega
      have hplus : ¬ (c = '+') :=
        digit_isSome_ne (hdigits c (List.mem_cons_self c rest)) (toDigit_plus 16)
      have hminus : ¬ (c = '-') :=
        digit_isSome_ne (hdigits c (List.mem_cons_self c rest)) (toDigit_minus 16)
      unfold convert_to_u64Core
      rw [if_pos hcond]
      show Except.ok (from_str_radix 16 (c :: rest)) = Except.ok (some (numValue 16 (c :: rest)))
      rw [from_str_radix_cons, if_neg hplus, if_neg hminus,
        digitsLoop_eq 16 (by norm_num) (c :: rest) 0 hdigits hbound]
      rfl
  · intro ds hne hdec hbound
    cases ds with
    | nil => exact absurd rfl hne
    | cons c rest =>
      have hdigits : ∀ x ∈ c :: rest, (toDigit 10 x).isSome = true := fun x hx => hdec x hx
      have hcond : ¬ ((c :: rest).length > 2 ∧ (c :: rest).take 2 = ['0', 'x']) := by
        rintro ⟨hlen, htake⟩
        cases rest with
        | nil => simp at hlen
        | cons c2 rest2 =>
          have h2 : [c, c2] = ['0', 'x'] := htake
          injection h2 with _ h3
          injection h3 with h4 _
          have hc2 : is_digit10 c2 = true := hdec c2 (by simp)
          rw [h4] at hc2
          exact absurd hc2 (by decide)
      have hc : is_digit10 c = true := hdec c (List.mem_cons_self c rest)
      have hplus : ¬ (c = '+') :=
        digit_isSome_ne (hdigits c (List.mem_cons_self c rest)) (toDigit_plus 10)
      have hminus : ¬ (c = '-') :=
        digit_isSome_ne (hdigits c (List.mem_cons_self c rest)) (toDigit_minus 10)
      unfold convert_to_u64Core
      rw [if_neg hcond]
      show (if is_digit10 c then Except.ok (from_str_radix 10 (c :: rest))
        else Except.ok none) = Except.ok (some (numValue 10 (c :: rest)))
      rw [hc, if_pos rfl]
      rw [from_str_radix_cons, if_neg hplus, if_neg hminus,
        digitsLoop_eq 10 (by norm_num) (c :: rest) 0 hdigits hbound]
      rfl

/-- C4 witness: the amended exactness theorem applied at the spec's examples
`0x1000` and `42`. -/
theorem claim4_literal_parser_exact_witness :
    convert_to_u64Core ('0' :: 'x' :: ['1', '0', '0', '0']) =
      .ok (some (numValue 16 ['1', '0', '0', '0'])) ∧
    convert_to_u64Core ['4', '2'] = .ok (some (numValue 10 ['4', '2'])) :=
  ⟨claim4_literal_parser_exact.1 ['1', '0', '0', '0'] (by decide) (by decide) (by decide),
   claim4_literal_parser_exact.2 ['4', '2'] (by decide) (by decide) (by decide)⟩

/-- C6: the literal token `SYM` classifies as `Symbolic`, never `Concrete`,
and every input whose trimmed form is `SYM` has its value side classified
as `Symbolic` by the enclosing assignment parser (which classifies the
trimmed segment). -/
theorem claim6_sym_classifies_symbolic :
    to_valtype "SYM" = .ok (some ValType.Symbolic) ∧
    (∀ s : List Char, trimCore s = ['S', 'Y', 'M'] →
      to_valtypeCore (trimCore s) = .ok (some ValType.Symbolic)) := by
  constructor
  · decide
  · intro s h
    rw [h]
    decide

/-- C6 witness: the input ` SYM ` trims to `SYM` and classifies as `Symbolic`. -/
theorem claim6_sym_classifies_symbolic_witness :
    trimCore " SYM ".data = ['S', 'Y', 'M'] ∧
    to_valtypeCore (trimCore " SYM ".data) = .ok (some ValType.Symbolic) :=
  ⟨by decide, claim6_sym_classifies_symbolic.2 " SYM ".data (by decide)⟩

/-- C10: `to_valtype` performs no whitespace trimming itself — a token that
is `SYM` or a well-formed numeral only after removing non-empty surrounding
whitespace classifies as nothing — while the enclosing assignment parser,
which trims each segment before classifying, still accepts such input. -/
theorem claim10_no_trim_in_classifier :
    (∀ pre core suf : List Char,
        (∀ c ∈ pre, c.isWhitespace) → (∀ c ∈ suf, c.isWhitespace) →
        pre ++ suf ≠ [] →
        (core = ['S', 'Y', 'M'] ∨ wfNumeral core) →
        to_valtypeCore (pre ++ core ++ suf) = .ok none) ∧
    to_valtype " SYM" = .ok none ∧
    to_valtype "42 " = .ok none ∧
    to_assignment "rax = SYM " = .ok (some ⟨Key.Reg "rax", ValType.Symbolic⟩) := by
  refine ⟨?_, by decide, by decide, by decide⟩
  intro pre core suf hpre hsuf hne hcore
  cases pre with
  | cons w pre2 =>
    exact to_valtypeCore_ws_head ((pre2 ++ core) ++ suf) (hpre w (List.mem_cons_self w pre2))
  | nil =>
    have hsufne : suf ≠ [] := by simpa using hne
    cases suf with
    | nil => exact absurd rfl hsufne
    | cons w suf2 =>
      have hw : w.isWhitespace = true := hsuf w (List.mem_cons_self w suf2)
      simp only [List.nil_append, List.cons_append]
      rcases hcore with rfl | hwf
      · simp only [List.cons_append, List.nil_append]
        have hsym : ¬ ('S' :: 'Y' :: 'M' :: w :: suf2 = ['S', 'Y', 'M']) := by
          intro he
          have hlen := congrArg List.length he
          simp at hlen
        have hcond : ¬ (('S' :: 'Y' :: 'M' :: w :: suf2).length > 2 ∧
            ('S' :: 'Y' :: 'M' :: w :: suf2).take 2 = ['0', 'x']) := by
          rintro ⟨_, htake⟩
          have h2 : (['S', 'Y'] : List Char) = ['0', 'x'] := htake
          exact absurd h2 (by decide)
        have hconv : convert_to_u64Core ('S' :: 'Y' :: 'M' :: w :: suf2) = .ok none := by
          unfold convert_to_u64Core
          rw [if_neg hcond]
          show (if is_digit10 'S'
            then Except.ok (from_str_radix 10 ('S' :: 'Y' :: 'M' :: w :: suf2))
            else Except.ok none) = Except.ok none
          rw [(by decide : is_digit10 'S' = false)]
          rfl
        unfold to_valtypeCore
        rw [if_neg hsym, hconv]
      · rcases hwf with ⟨ds, rfl, hdsne, hdshex⟩ | ⟨hcne, hcdec⟩
        · obtain ⟨d, ds2, rfl⟩ : ∃ d ds2, ds = d :: ds2 := by
            cases ds with
            | nil => exact absurd rfl hdsne
            | cons d ds2 => exact ⟨d, ds2, rfl⟩
          simp only [List.cons_append]
          have hsym : ¬ ('0' :: 'x' :: d :: (ds2 ++ w :: suf2) = ['S', 'Y', 'M']) := by
            intro he
            injection he with h1 _
            exact absurd h1 (by decide)
          have hcond : ('0' :: 'x' :: d :: (ds2 ++ w :: suf2)).length > 2 ∧
              ('0' :: 'x' :: d :: (ds2 ++ w :: suf2)).take 2 = ['0', 'x'] := by
            refine ⟨?_, rfl⟩
            simp only [List.length_cons]
            omega
          have hfsr : from_str_radix 16 (d :: (ds2 ++ w :: suf2)) = none :=
            from_str_radix_digits_head_none (hdshex d (List.mem_cons_self d ds2)) hw (by simp)
          have hconv : convert_to_u64Core ('0' :: 'x' :: d :: (ds2 ++ w :: suf2)) = .ok none := by
            unfold convert_to_u64Core
            rw [if_pos hcond]
            show Except.ok (from_str_radix 16 (d :: (ds2 ++ w :: suf2))) = Except.ok none
            rw [hfsr]
          unfold to_valtypeCore
          rw [if_neg hsym, hconv]
        · obtain ⟨c, core2, rfl⟩ : ∃ c core2, core = c :: core2 := by
            cases core with
            | nil => exact absurd rfl hcne
            | cons c core2 => exact ⟨c, core2, rfl⟩
          simp only [List.cons_append]
          have hc : is_digit10 c = true := hcdec c (List.mem_cons_self c core2)
          have hsym : ¬ (c :: (core2 ++ w :: suf2) = ['S', 'Y', 'M']) := by
            intro he
            injection he with h1 _
            rw [h1] at hc
            exact absurd hc (by decide)
          have hcond : ¬ ((c :: (core2 ++ w :: suf2)).length > 2 ∧
              (c :: (core2 ++ w :: suf2)).take 2 = ['0', 'x']) := by
            rintro ⟨_, htake⟩
            cases core2 with
            | nil =>
              have h2 : [c, w] = ['0', 'x'] := htake
              injection h2 with _ h3
              injection h3 with h4 _
              rw [h4] at hw
              exact absurd hw (by decide)
            | cons c2 core3 =>
              have h2 : [c, c2] = ['0', 'x'] := htake
              injection h2 with _ h3
              injection h3 with h4 _
              have hc2 : is_digit10 c2 = true := hcdec c2 (by simp)
              rw [h4] at hc2
              exact absurd hc2 (by decide)
          have hfsr : from_str_radix 10 (c :: (core2 ++ w :: suf2)) = none :=
            from_str_radix_digits_head_none hc hw (by simp)
          have hconv : convert_to_u64Core (c :: (core2 ++ w :: suf2)) = .ok none := by
            unfold convert_to_u64Core
            rw [if_neg hcond]
            show (if is_digit10 c
              then Except.ok (from_str_radix 10 (c :: (core2 ++ w :: suf2)))
              else Except.ok none) = Except.ok none
            rw [hc, if_pos rfl, hfsr]
          unfold to_valtypeCore
          rw [if_neg hsym, hconv]

/-- C10 witness: the general no-trim theorem applied to ` SYM`, whose
trimmed form is `SYM` yet which classifies as nothing. -/
theorem claim10_no_trim_in_classifier_witness :
    to_valtypeCore ([' '] ++ ['S', 'Y', 'M'] ++ []) = .ok none :=
  claim10_no_trim_in_classifier.1 [' '] ['S', 'Y', 'M'] [] (by decide) (by decide)
    (by decide) (Or.inl rfl)

end Rune
